import Mathlib

/-! Verification development for the obsidian-weekly-notes plugin.

The program under study is `src/main.ts` (current revision) together with
`src/unnamed/part_000` (an earlier revision of the same plugin, whose
placeholder rewriting is inlined in `openWeeklyNote`).

Modelling conventions:
* Dates are integers counting days since 1970-01-01 (a Thursday); this is the
  day-granularity part of the moment.js values the plugin manipulates.
* `moment(...).day()` and `moment(...).day(i)` are `dayOfWeek` and `setDay`;
  `moment(...).format(f)` is modelled by `momentFormat` for the format strings
  the claims exercise, and kept abstract (a parameter `fmt`) elsewhere.
* Host vault state is a list of entries; host side effects (notifications,
  file creation, template insertion, editor writes) are reified as a list of
  `Effect` values.
* JavaScript string truthiness is modelled as `≠ ""`; an absent or disabled
  plugin is `none`.
* Brace characters inside string and character literals are written with
  `\x7b` and `\x7d` escapes throughout.
-/

/-- The seven weekday names, in the order of both the regex alternation and
the `days` array of `replaceDatePlaceholders` in `src/main.ts` line 198. -/
def days : List String :=
  ["sunday", "monday", "tuesday", "wednesday", "thursday", "friday", "saturday"]

/-- Characters that the JavaScript regex `.` does not match: the four
ECMAScript line terminators. -/
def isLineTerminator (c : Char) : Bool :=
  c = '\n' || c = '\r' || c = '\u2028' || c = '\u2029'

/-- Match a literal character sequence at the head of the input, returning the
remainder on success. -/
def dropLit : List Char → List Char → Option (List Char)
  | [], l => some l
  | _ :: _, [] => none
  | c :: p, c' :: l => if c' = c then dropLit p l else none

/-- Case-insensitively match a lower-case literal at the head of the input
(the `i` regex flag), returning the input characters actually matched and the
remainder. -/
def dropLitCI : List Char → List Char → Option (List Char × List Char)
  | [], l => some ([], l)
  | _ :: _, [] => none
  | c :: p, c' :: l =>
    if c'.toLower = c then
      match dropLitCI p l with
      | some (w, r) => some (c' :: w, r)
      | none => none
    else none

/-- Try the weekday alternatives of the regex alternation in order, returning
the matched input characters (capture group 1) and the remainder. -/
def matchDay : List String → List Char → Option (List Char × List Char)
  | [], _ => none
  | n :: ns, l =>
    match dropLitCI n.data l with
    | some (w, r) => some (w, r)
    | none => matchDay ns l

/-- One attempted match, at the head of the input, of the placeholder regex of
`src/main.ts` line 200 (identical to `src/unnamed/part_000` line 157): the
literal `!` and two opening braces, a weekday name (case-insensitive), `:`,
then capture group 2 consisting of one character matched by `.` (any character
except a line terminator) followed by zero or more characters other than a
closing brace, then two closing braces.  Returns the full matched text, the
two capture groups, and the remaining input. -/
def tryMatch (l : List Char) : Option (String × String × String × List Char) :=
  match dropLit ['!', '\x7b', '\x7b'] l with
  | none => none
  | some l1 =>
    match matchDay days l1 with
    | none => none
    | some (w, l2) =>
      match l2 with
      | ':' :: c :: cs =>
        if isLineTerminator c then none
        else
          match cs.dropWhile (fun x => x ≠ '\x7d') with
          | '\x7d' :: '\x7d' :: rest =>
            let s := cs.takeWhile (fun x => x ≠ '\x7d')
            some (String.mk ('!' :: '\x7b' :: '\x7b' :: (w ++ ':' :: c :: (s ++ ['\x7d', '\x7d']))),
                  String.mk w, String.mk (c :: s), rest)
          | _ => none
      | _ => none

/-- One pass of JavaScript `String.replace` with the global placeholder regex:
scan left to right, replace each non-overlapping match using the callback, and
accumulate the callback's modified flag.  Fuel-indexed structural recursion;
`runScan` supplies sufficient fuel. -/
def scanRepl (cb : String → String → String → String × Bool) :
    Nat → List Char → List Char × Bool
  | _, [] => ([], false)
  | 0, l => (l, false)
  | fuel + 1, c :: cs =>
    match tryMatch (c :: cs) with
    | some (m, d, s, rest) =>
      let r := cb m d s
      let t := scanRepl cb fuel rest
      (r.1.data ++ t.1, r.2 || t.2)
    | none =>
      let t := scanRepl cb fuel cs
      (c :: t.1, t.2)

/-- `content.replace(regex, cb)` together with the `modified` flag. -/
def runScan (cb : String → String → String → String × Bool) (l : List Char) :
    List Char × Bool :=
  scanRepl cb l.length l

/-- Day of week of a day number, sunday = 0: the value of
`moment(...).day()`.  Day 0 (1970-01-01) is a Thursday. -/
def dayOfWeek (d : Int) : Int := (d + 4) % 7

/-- `moment(...).day(i)`: move to weekday `i` (sunday = 0 … saturday = 6) of
the current sunday-to-saturday week, rewinding or advancing within that week. -/
def setDay (d : Int) (i : Nat) : Int := d - dayOfWeek d + i

/-- Proleptic-Gregorian calendar date (year, month, day-of-month) of a day
number; the standard civil-from-days algorithm. -/
def civilFromDays (z0 : Int) : Int × Nat × Nat :=
  let z := z0 + 719468
  let era := z.fdiv 146097
  let doe := (z - era * 146097).toNat
  let yoe := (doe - doe / 1460 + doe / 36524 - doe / 146096) / 365
  let y : Int := (yoe : Int) + era * 400
  let doy := doe - (365 * yoe + yoe / 4 - yoe / 100)
  let mp := (5 * doy + 2) / 153
  let d := doy - (153 * mp + 2) / 5 + 1
  let m := if mp < 10 then mp + 3 else mp - 9
  (if m ≤ 2 then y + 1 else y, m, d)

/-- Zero-pad a number to two digits. -/
def pad2 (n : Nat) : String := if n < 10 then "0" ++ toString n else toString n

/-- Zero-pad a year to four digits (for the years the claims exercise). -/
def pad4 (y : Int) : String :=
  if 0 ≤ y ∧ y < 10 then "000" ++ toString y
  else if 0 ≤ y ∧ y < 100 then "00" ++ toString y
  else if 0 ≤ y ∧ y < 1000 then "0" ++ toString y
  else toString y

/-- Format-string interpreter behind `momentFormat`; fuel-indexed so that the
bracket-escape case is structural. -/
def momentFormatAux (y : Int) (m d : Nat) : Nat → List Char → List Char
  | 0, l => l
  | _ + 1, [] => []
  | fuel + 1, '[' :: rest =>
    let lit := rest.takeWhile (fun c => c ≠ ']')
    let rest2 := rest.dropWhile (fun c => c ≠ ']')
    lit ++ momentFormatAux y m d fuel (match rest2 with
      | ']' :: r => r
      | r => r)
  | fuel + 1, 'Y' :: 'Y' :: 'Y' :: 'Y' :: rest => (pad4 y).data ++ momentFormatAux y m d fuel rest
  | fuel + 1, 'M' :: 'M' :: rest => (pad2 m).data ++ momentFormatAux y m d fuel rest
  | fuel + 1, 'D' :: 'D' :: rest => (pad2 d).data ++ momentFormatAux y m d fuel rest
  | fuel + 1, c :: rest => c :: momentFormatAux y m d fuel rest

/-- Modelled from the spec: `moment(...).format(f)` of the external moment.js
library (a dependency, not part of src/), restricted to the features the
claims exercise: the tokens `YYYY`, `MM`, `DD`, bracket-escaped literal text,
and non-token characters copied verbatim.  The general theorems keep the
formatter abstract; this concrete model is only evaluated at the format
strings `YYYY-MM-DD`, `[]` and single non-token literal characters, on which
it agrees with moment.js. -/
def momentFormat (day : Int) (f : String) : String :=
  let c := civilFromDays day
  String.mk (momentFormatAux c.1 c.2.1 c.2.2 f.data.length f.data)

/-- JavaScript `String.toLowerCase` (ASCII range, as used on weekday names). -/
def jsToLower (s : String) : String := String.mk (s.data.map Char.toLower)

/-- JavaScript `String.trim`: strip whitespace from both ends (ASCII
whitespace, which covers the payloads the program compares after trimming). -/
def jsTrim (s : String) : String :=
  String.mk (((s.data.dropWhile Char.isWhitespace).reverse.dropWhile
    Char.isWhitespace).reverse)

/-- JavaScript `Array.indexOf` on a string array, except that a missing
element yields the array length rather than `-1`; callers compare against the
length where the source compares against `-1`. -/
def indexOfString (x : String) : List String → Nat
  | [] => 0
  | d :: ds => if d = x then 0 else indexOfString x ds + 1

/-- Options of the host daily-notes plugin as read by the program: format,
folder and template path strings, with `""` standing for an unset (falsy)
option.  A disabled or missing plugin is modelled as `none` at use sites. -/
structure DailyNotesOptions where
  format : String
  folder : String
  template : String
  deriving DecidableEq, Repr

/-- `getDailyNoteLink` of `src/main.ts` lines 220-237, with the formatter
abstract. -/
def getDailyNoteLink (fmt : Int → String → String) (daily : Option DailyNotesOptions)
    (date : Int) : Option String :=
  match daily with
  | none => none
  | some o =>
    let dailyFormat := if o.format = "" then "YYYY-MM-DD" else o.format
    let dailyFolder := o.folder
    let dateString := fmt date dailyFormat
    if dailyFolder = "" then some dateString
    else some (dailyFolder ++ "/" ++ dateString)

/-- The replacement callback of `replaceDatePlaceholders` in `src/main.ts`
lines 200-212.  Arguments are the full match and the two capture groups; the
boolean records whether the callback set the `modified` flag.  The `||`
fallback of line 208 fires on a null link and on an empty-string link (both
falsy in JavaScript). -/
def placeholderCallback (fmt : Int → String → String) (daily : Option DailyNotesOptions)
    (date : Int) (mtext dayName format : String) : String × Bool :=
  let dayIndex := indexOfString (jsToLower dayName) days
  if days.length ≤ dayIndex then (mtext, false)
  else
    let targetDate := setDay date dayIndex
    if jsTrim format = "daily-note" then
      match getDailyNoteLink fmt daily targetDate with
      | some s => if s = "" then (fmt targetDate "YYYY-MM-DD", true) else (s, true)
      | none => (fmt targetDate "YYYY-MM-DD", true)
    else (fmt targetDate format, true)

/-- The replacement callback inlined in `openWeeklyNote` of
`src/unnamed/part_000` lines 157-187: `modified` is set before the day-index
check, and the daily-note branch inlines the link computation, returning the
(possibly empty) link string directly with no falsiness fallback. -/
def placeholderCallbackLegacy (fmt : Int → String → String) (daily : Option DailyNotesOptions)
    (date : Int) (mtext dayName format : String) : String × Bool :=
  let dayIndex := indexOfString (jsToLower dayName) days
  if dayIndex < days.length then
    let targetDate := setDay date dayIndex
    if jsTrim format = "daily-note" then
      match daily with
      | some o =>
        let dailyFormat := if o.format = "" then "YYYY-MM-DD" else o.format
        let dailyFolder := o.folder
        let dateString := fmt targetDate dailyFormat
        if dailyFolder = "" then (dateString, true)
        else (dailyFolder ++ "/" ++ dateString, true)
      | none => (fmt targetDate "YYYY-MM-DD", true)
    else (fmt targetDate format, true)
  else (mtext, true)

/-- `replaceDatePlaceholders` of `src/main.ts` lines 191-218, acting on the
active editor's content: the rewritten content paired with the `modified`
flag; `editor.setValue` is invoked exactly when the flag is true. -/
def replaceDatePlaceholders (fmt : Int → String → String) (daily : Option DailyNotesOptions)
    (date : Int) (content : String) : String × Bool :=
  let r := runScan (placeholderCallback fmt daily date) content.data
  (String.mk r.1, r.2)

/-- The corresponding rewrite of `src/unnamed/part_000` lines 149-194 (the
regex literal there is character-for-character the same). -/
def replaceDatePlaceholdersLegacy (fmt : Int → String → String) (daily : Option DailyNotesOptions)
    (date : Int) (content : String) : String × Bool :=
  let r := runScan (placeholderCallbackLegacy fmt daily date) content.data
  (String.mk r.1, r.2)

/-- One entry of the host vault: a path, whether it is a file (`TFile`) as
opposed to a folder, and its content (folders carry `""`). -/
structure VaultEntry where
  path : String
  isFile : Bool
  content : String
  deriving DecidableEq, Repr

/-- The host vault, as the list of its entries. -/
abbrev Vault := List VaultEntry

/-- Split a character sequence at path separators (slash or backslash). -/
def pathSegs : List Char → List (List Char)
  | [] => [[]]
  | c :: cs =>
    if c = '/' ∨ c = '\\' then [] :: pathSegs cs
    else
      match pathSegs cs with
      | [] => [[c]]
      | s :: rest => (c :: s) :: rest

/-- Join path segments with slashes. -/
def joinSegs : List (List Char) → List Char
  | [] => []
  | [s] => s
  | s :: rest => s ++ '/' :: joinSegs rest

/-- Modelled from the spec: the host's `normalizePath` (an Obsidian API, not
part of src/), which normalizes separators and strips empty path segments. -/
def normalizePath (p : String) : String :=
  String.mk (joinSegs ((pathSegs p.data).filter (fun s => s ≠ [])))

/-- `vault.getAbstractFileByPath`: the entry at exactly this path, if any. -/
def getAbstractFileByPath (v : Vault) (p : String) : Option VaultEntry :=
  v.find? (fun e => e.path = p)

/-- `vault.create(path, "")`: a new empty file entry. -/
def vaultCreateFile (v : Vault) (p : String) : Vault :=
  ⟨p, true, ""⟩ :: v

/-- `vault.createFolder(path)`: a new folder entry. -/
def vaultCreateFolder (v : Vault) (p : String) : Vault :=
  ⟨p, false, ""⟩ :: v

/-- `vault.modify(file, content)`: replace the content at a path. -/
def vaultModify (v : Vault) (p : String) (c : String) : Vault :=
  v.map (fun e => if e.path = p then ⟨e.path, e.isFile, c⟩ else e)

/-- Observable host side effects of the operations under study. -/
inductive Effect where
  | createFolder (path : String)
  | createFile (path : String)
  | notice (msg : String)
  | openFile (path : String)
  | insertTemplate (path : String)
  | modifyFile (path : String) (content : String)
  | scheduleRewrite
  deriving DecidableEq, Repr

/-- Template resolution of `applyTemplate` in `src/main.ts` lines 156-162:
the configured path looked up literally first, then with `.md` appended. -/
def resolveTemplateWeekly (v : Vault) (template : String) : Option VaultEntry :=
  match getAbstractFileByPath v (normalizePath template) with
  | some e => some e
  | none => getAbstractFileByPath v (normalizePath (template ++ ".md"))

/-- Template resolution of `onFileCreate` in `src/main.ts` lines 79-80: the
configured path with `.md` appended is looked up first, then the literal
path. -/
def resolveTemplateDaily (v : Vault) (template : String) : Option VaultEntry :=
  match getAbstractFileByPath v (normalizePath (template ++ ".md")) with
  | some e => some e
  | none => getAbstractFileByPath v (normalizePath template)

/-- `applyTemplate` of `src/main.ts` lines 155-189: resolve the weekly
template, notify and stop if it is missing, silently stop if it is not a file,
otherwise delegate to the host templates plugin when enabled or copy the raw
template content into the note, and in either case schedule the delayed
placeholder rewrite. -/
def applyTemplate (templatesEnabled : Bool) (v : Vault) (templateSetting : String)
    (filePath : String) : Vault × List Effect :=
  match resolveTemplateWeekly v templateSetting with
  | none => (v, [Effect.notice ("Template file not found: " ++ templateSetting)])
  | some e =>
    if e.isFile then
      if templatesEnabled then (v, [Effect.insertTemplate e.path, Effect.scheduleRewrite])
      else
        (vaultModify v filePath e.content,
         [Effect.modifyFile filePath e.content,
          Effect.notice "Core Templates plugin not enabled. Applied raw template.",
          Effect.scheduleRewrite])
    else (v, [])

/-- `ensureFolderExists` of `src/main.ts` lines 137-153. -/
def ensureFolderExists (v : Vault) (folder : String) : Vault × List Effect :=
  let nf := normalizePath folder
  if nf = "" ∨ nf = "/" then (v, [])
  else
    match getAbstractFileByPath v nf with
    | some _ => (v, [])
    | none => (vaultCreateFolder v nf, [Effect.createFolder nf])

/-- The plugin's persisted settings record. -/
structure WeeklyNotesSettings where
  folder : String
  template : String
  dateFormat : String
  deriving DecidableEq, Repr

/-- `openWeeklyNote` of `src/main.ts` lines 98-130: compute the note path,
create folder and empty file when the path is unoccupied (with a `Created
weekly note` notification), open the note, and apply the template only for a
newly created note when one is configured.  The filename formatter is
abstract. -/
def openWeeklyNote (fmt : Int → String → String) (templatesEnabled : Bool)
    (v : Vault) (s : WeeklyNotesSettings) (date : Int) : Vault × List Effect :=
  let filename := fmt date s.dateFormat
  let path := normalizePath (s.folder ++ "/" ++ filename ++ ".md")
  match getAbstractFileByPath v path with
  | some e =>
    if e.isFile then (v, [Effect.openFile path]) else (v, [])
  | none =>
    let r1 := ensureFolderExists v s.folder
    let v2 := vaultCreateFile r1.1 path
    let efs := r1.2 ++
      [Effect.createFile path, Effect.notice ("Created weekly note: " ++ filename),
       Effect.openFile path]
    if s.template = "" then (v2, efs)
    else
      let r2 := applyTemplate templatesEnabled v2 s.template path
      (r2.1, efs ++ r2.2)

/-- A file as delivered by the host `create` event. -/
structure CreatedFile where
  basename : String
  extension : String
  parentPath : Option String
  size : Nat
  isTFile : Bool
  deriving DecidableEq, Repr

/-- `onFileCreate` of `src/main.ts` lines 48-96, with the strict date parser
(`moment(name, fmt, true).isValid()`) abstract: ignore anything that is not a
freshly created empty markdown file, require the daily-notes plugin enabled
with a configured template, require the base name to strictly parse against
the daily format, require the parent folder to equal the configured folder
when one is set, resolve the daily template, and schedule template insertion
when the host templates plugin is enabled. -/
def onFileCreate (parse : String → String → Bool) (v : Vault)
    (daily : Option DailyNotesOptions) (templatesEnabled : Bool)
    (f : CreatedFile) : List Effect :=
  if ¬ f.isTFile ∨ f.extension ≠ "md" ∨ 0 < f.size then []
  else
    match daily with
    | none => []
    | some o =>
      let dailyFormat := if o.format = "" then "YYYY-MM-DD" else o.format
      let dailyFolder := o.folder
      let templatePath := o.template
      if templatePath = "" then []
      else if ¬ parse f.basename dailyFormat then []
      else if dailyFolder ≠ "" ∧ f.parentPath ≠ some (normalizePath dailyFolder) then []
      else
        match resolveTemplateDaily v templatePath with
        | none => []
        | some e =>
          if ¬ e.isFile then []
          else if templatesEnabled then [Effect.insertTemplate e.path]
          else []

/-- Days in a Gregorian month. -/
def daysInMonth (y m : Nat) : Nat :=
  if m = 2 then (if (y % 4 == 0 && y % 100 != 0) || y % 400 == 0 then 29 else 28)
  else if m = 4 ∨ m = 6 ∨ m = 9 ∨ m = 11 then 30 else 31

/-- Modelled from the spec: strict parsing of a base name against the
daily-notes date format, `moment(name, fmt, true).isValid()` of the external
moment.js library (not part of src/).  Implemented for the format string
`YYYY-MM-DD` used by the concrete claims; the general theorems keep the
parser abstract. -/
def strictParseYMD (name fmtStr : String) : Bool :=
  if fmtStr = "YYYY-MM-DD" then
    match name.data with
    | [y1, y2, y3, y4, '-', m1, m2, '-', d1, d2] =>
      (y1.isDigit && y2.isDigit && y3.isDigit && y4.isDigit &&
       m1.isDigit && m2.isDigit && d1.isDigit && d2.isDigit) &&
      (let y := (y1.toNat - 48) * 1000 + (y2.toNat - 48) * 100 +
                (y3.toNat - 48) * 10 + (y4.toNat - 48)
       let m := (m1.toNat - 48) * 10 + (m2.toNat - 48)
       let d := (d1.toNat - 48) * 10 + (d2.toNat - 48)
       decide (1 ≤ m) && decide (m ≤ 12) && decide (1 ≤ d) && decide (d ≤ daysInMonth y m))
    | _ => false
  else false

/-- The token shape recognized by the placeholder rewrite, stated
declaratively in the words of the (amended) claim C2: the literal `!` and two
opening braces, a weekday name matched case-insensitively, `:`, a first
payload character that is not a line terminator (it may be a closing brace),
zero or more further characters none of which is a closing brace, and two
closing braces. -/
def specTokenShape (l : List Char) : Prop :=
  ∃ (name : String) (w : List Char) (c : Char) (s rest : List Char),
    name ∈ days ∧ w.map Char.toLower = name.data ∧
    isLineTerminator c = false ∧ '\x7d' ∉ s ∧
    l = '!' :: '\x7b' :: '\x7b' :: (w ++ ':' :: c :: (s ++ '\x7d' :: '\x7d' :: rest))

/-- The token shape claim C2 literally states: as `specTokenShape`, but with
the payload required to be one or more characters none of which is a closing
brace.  Executable, so that its absence from a concrete document is
decidable. -/
def claimedTokenShapeAt (l : List Char) : Bool :=
  match dropLit ['!', '\x7b', '\x7b'] l with
  | none => false
  | some l1 =>
    match matchDay days l1 with
    | none => false
    | some (_, l2) =>
      match l2 with
      | ':' :: l3 =>
        decide (l3.takeWhile (fun x => x ≠ '\x7d') ≠ []) &&
        (match l3.dropWhile (fun x => x ≠ '\x7d') with
         | '\x7d' :: '\x7d' :: _ => true
         | _ => false)
      | _ => false

/-- Segment of a document under the placeholder scan: either a character left
in place or a matched token together with its capture groups. -/
inductive Segment where
  | plain (c : Char)
  | tok (mtext dayName format : String)
  deriving DecidableEq, Repr

/-- The source text a segment came from. -/
def segmentSource : Segment → List Char
  | .plain c => [c]
  | .tok m _ _ => m.data

/-- The output text a segment contributes under a replacement callback. -/
def segmentOutput (cb : String → String → String → String × Bool) :
    Segment → List Char
  | .plain c => [c]
  | .tok m d s => (cb m d s).1.data

/-- Decomposition of a document into plain characters and matched tokens,
following the same left-to-right non-overlapping scan as `scanRepl`. -/
def decomposeFuel : Nat → List Char → List Segment
  | _, [] => []
  | 0, l => l.map Segment.plain
  | fuel + 1, c :: cs =>
    match tryMatch (c :: cs) with
    | some (m, d, s, rest) => Segment.tok m d s :: decomposeFuel fuel rest
    | none => Segment.plain c :: decomposeFuel fuel cs

/-- Decomposition of a document under the placeholder scan. -/
def decompose (l : List Char) : List Segment :=
  decomposeFuel l.length l

/-- Effects that create a weekly note file or announce its creation. -/
def isCreationEffect : Effect → Bool
  | .createFile _ => true
  | .notice m => m.startsWith "Created weekly note"
  | _ => false

theorem dropLit_eq_some : ∀ (p l r : List Char), dropLit p l = some r → l = p ++ r
  | [], _, _, h => by simpa [dropLit] using congrArg (fun o => o.getD []) h
  | _ :: _, [], _, h => by simp [dropLit] at h
  | c :: p, c' :: l, r, h => by
    simp only [dropLit] at h
    split at h
    · next heq => subst heq; simpa using dropLit_eq_some p l r h
    · simp at h

theorem dropLit_self : ∀ (p r : List Char), dropLit p (p ++ r) = some r
  | [], _ => rfl
  | c :: p, r => by simpa [dropLit] using dropLit_self p r

theorem dropLitCI_sound : ∀ (p l : List Char) (w r : List Char),
    dropLitCI p l = some (w, r) → l = w ++ r ∧ w.map Char.toLower = p
  | [], l, w, r, h => by
    simp only [dropLitCI, Option.some.injEq, Prod.mk.injEq] at h
    obtain ⟨hw, hr⟩ := h
    subst hw
    subst hr
    simp
  | _ :: _, [], _, _, h => by simp [dropLitCI] at h
  | c :: p, c' :: l, w, r, h => by
    simp only [dropLitCI] at h
    split at h
    · next hlow =>
      cases hrec : dropLitCI p l with
      | none => rw [hrec] at h; simp at h
      | some pr =>
        rw [hrec] at h
        obtain ⟨w', r'⟩ := pr
        simp only [Option.some.injEq, Prod.mk.injEq] at h
        obtain ⟨hw, hr⟩ := h
        obtain ⟨hl, hmap⟩ := dropLitCI_sound p l w' r' hrec
        subst hw hr hl
        simp [hmap, hlow]
    · simp at h

theorem dropLitCI_complete : ∀ (w : List Char) (r : List Char),
    dropLitCI (w.map Char.toLower) (w ++ r) = some (w, r)
  | [], _ => rfl
  | c :: w, r => by simp [dropLitCI, dropLitCI_complete w r]

theorem matchDay_sound : ∀ (ns : List String) (l w r : List Char),
    matchDay ns l = some (w, r) →
    ∃ n ∈ ns, w.map Char.toLower = n.data ∧ l = w ++ r
  | [], _, _, _, h => by simp [matchDay] at h
  | n :: ns, l, w, r, h => by
    simp only [matchDay] at h
    cases hd : dropLitCI n.data l with
    | none =>
      rw [hd] at h
      obtain ⟨n', hn', hw, hl⟩ := matchDay_sound ns l w r h
      exact ⟨n', List.mem_cons_of_mem _ hn', hw, hl⟩
    | some pr =>
      rw [hd] at h
      obtain ⟨w', r'⟩ := pr
      obtain ⟨hl, hmap⟩ := dropLitCI_sound n.data l w' r' hd
      simp only [Option.some.injEq, Prod.mk.injEq] at h
      obtain ⟨hw, hr⟩ := h
      subst hw
      subst hr
      exact ⟨n, List.mem_cons_self n ns, hmap, hl⟩

/-- No weekday name is the truncation of another. -/
theorem days_not_truncation :
    ∀ n ∈ days, ∀ m ∈ days, n.data = m.data.take n.data.length → n = m := by
  decide

/-- No weekday name contains a colon. -/
theorem days_no_colon : ∀ n ∈ days, ':' ∉ n.data := by decide

theorem matchDay_exact_aux (name : String) (w : List Char) (t : List Char)
    (hw : w.map Char.toLower = name.data) (hdays : name ∈ days) :
    ∀ ns : List String, (∀ n ∈ ns, n ∈ days) → name ∈ ns →
    matchDay ns (w ++ ':' :: t) = some (w, ':' :: t)
  | [], _, hmem => absurd hmem (List.not_mem_nil name)
  | n :: ns, hsub, hmem => by
    simp only [matchDay]
    cases hd : dropLitCI n.data (w ++ ':' :: t) with
    | some pr =>
      obtain ⟨w', r'⟩ := pr
      obtain ⟨hl, hmap⟩ := dropLitCI_sound _ _ _ _ hd
      rcases List.append_eq_append_iff.mp hl.symm with ⟨a', ha, hb⟩ | ⟨c', hc, hdres⟩
      · -- w = w' ++ a' and r' = a' ++ ':' :: t : the candidate matched a
        -- truncation of the wanted name, so it is the wanted name itself
        have h1 : name.data = n.data ++ a'.map Char.toLower := by
          rw [← hw, ha, List.map_append, hmap]
        have hpre : n.data = name.data.take n.data.length := by
          rw [h1, ← hmap, List.take_left, hmap]
        have hnn : n = name :=
          days_not_truncation n (hsub n (List.mem_cons_self n ns)) name hdays hpre
        subst hnn
        have ha' : a' = [] := by
          have h2 : (a'.map Char.toLower).length = 0 := by
            have h3 := congrArg List.length h1
            rw [List.length_append] at h3
            omega
          exact List.map_eq_nil_iff.mp (List.length_eq_zero.mp h2)
        subst ha'
        simp only [List.append_nil] at ha
        simp only [List.nil_append] at hb
        simp [ha, hb]
      · -- w' = w ++ c' and ':' :: t = c' ++ r' : a longer candidate would
        -- have to contain the colon
        cases c' with
        | nil =>
          simp only [List.append_nil] at hc
          simp only [List.nil_append] at hdres
          simp [hc, ← hdres]
        | cons x c'' =>
          exfalso
          simp only [List.cons_append] at hdres
          injection hdres with hx htail
          have hcolon : ':' ∈ w' := by
            rw [hc, hx]
            exact List.mem_append_right w (List.mem_cons_self _ _)
          have hmem2 : ':' ∈ n.data := by
            have h4 : Char.toLower ':' ∈ w'.map Char.toLower :=
              List.mem_map_of_mem _ hcolon
            rw [hmap] at h4
            have h5 : Char.toLower ':' = ':' := by decide
            rwa [h5] at h4
          exact days_no_colon n (hsub n (List.mem_cons_self n ns)) hmem2
    | none =>
      have hne : name ≠ n := by
        intro heq
        subst heq
        rw [← hw] at hd
        rw [dropLitCI_complete w (':' :: t)] at hd
        simp at hd
      have hmem' : name ∈ ns := by
        cases List.mem_cons.mp hmem with
        | inl h => exact absurd h hne
        | inr h => exact h
      exact matchDay_exact_aux name w t hw hdays ns
        (fun n' hn' => hsub n' (List.mem_cons_of_mem _ hn')) hmem'

theorem matchDay_exact (name : String) (w : List Char) (t : List Char)
    (hdays : name ∈ days) (hw : w.map Char.toLower = name.data) :
    matchDay days (w ++ ':' :: t) = some (w, ':' :: t) :=
  matchDay_exact_aux name w t hw hdays days (fun _ h => h) hdays


theorem takeWhile_no_brace : ∀ (s r : List Char), '\x7d' ∉ s →
    (s ++ '\x7d' :: r).takeWhile (fun x => x ≠ '\x7d') = s
  | [], r, _ => by simp
  | x :: s, r, h => by
    have hx : x ≠ '\x7d' := fun hx => h (hx ▸ List.mem_cons_self x s)
    have hs : '\x7d' ∉ s := fun hs => h (List.mem_cons_of_mem x hs)
    simpa [List.takeWhile_cons, hx] using takeWhile_no_brace s r hs

theorem dropWhile_no_brace : ∀ (s r : List Char), '\x7d' ∉ s →
    (s ++ '\x7d' :: r).dropWhile (fun x => x ≠ '\x7d') = '\x7d' :: r
  | [], r, _ => by simp
  | x :: s, r, h => by
    have hx : x ≠ '\x7d' := fun hx => h (hx ▸ List.mem_cons_self x s)
    have hs : '\x7d' ∉ s := fun hs => h (List.mem_cons_of_mem x hs)
    simpa [List.dropWhile_cons, hx] using dropWhile_no_brace s r hs

theorem tryMatch_exact (name : String) (w : List Char) (c : Char) (s t : List Char)
    (hn : name ∈ days) (hw : w.map Char.toLower = name.data)
    (hc : isLineTerminator c = false) (hs : '\x7d' ∉ s) :
    tryMatch ('!' :: '\x7b' :: '\x7b' :: (w ++ ':' :: c :: (s ++ '\x7d' :: '\x7d' :: t)))
      = some (String.mk ('!' :: '\x7b' :: '\x7b' :: (w ++ ':' :: c :: (s ++ ['\x7d', '\x7d']))),
              String.mk w, String.mk (c :: s), t) := by
  have h1 : dropLit ['!', '\x7b', '\x7b']
      ('!' :: '\x7b' :: '\x7b' :: (w ++ ':' :: c :: (s ++ '\x7d' :: '\x7d' :: t)))
      = some (w ++ ':' :: c :: (s ++ '\x7d' :: '\x7d' :: t)) := by
    simpa using dropLit_self ['!', '\x7b', '\x7b'] (w ++ ':' :: c :: (s ++ '\x7d' :: '\x7d' :: t))
  have h2 := matchDay_exact name w (c :: (s ++ '\x7d' :: '\x7d' :: t)) hn hw
  have h3 := dropWhile_no_brace s ('\x7d' :: t) hs
  have h4 := takeWhile_no_brace s ('\x7d' :: t) hs
  simp only [tryMatch, h1, h2, hc, Bool.false_eq_true, if_false, h3, h4]

theorem tryMatch_inv (l : List Char) (m d s : String) (rest : List Char)
    (h : tryMatch l = some (m, d, s, rest)) :
    ∃ (name : String) (w : List Char) (c : Char) (s' : List Char),
      name ∈ days ∧ w.map Char.toLower = name.data ∧
      isLineTerminator c = false ∧ '\x7d' ∉ s' ∧
      l = '!' :: '\x7b' :: '\x7b' :: (w ++ ':' :: c :: (s' ++ '\x7d' :: '\x7d' :: rest)) ∧
      m = String.mk ('!' :: '\x7b' :: '\x7b' :: (w ++ ':' :: c :: (s' ++ ['\x7d', '\x7d']))) ∧
      d = String.mk w ∧ s = String.mk (c :: s') := by
  unfold tryMatch at h
  split at h
  · simp at h
  · next l1 h1 =>
    split at h
    · simp at h
    · next w l2 h2 =>
      split at h
      · next c cs =>
        split at h
        · simp at h
        · next hlt =>
          split at h
          · next rest' h3 =>
            simp only [Option.some.injEq, Prod.mk.injEq] at h
            obtain ⟨hm, hd, hsval, hrest⟩ := h
            rw [hrest] at h3
            obtain ⟨name, hname, hwmap, hl1⟩ := matchDay_sound days l1 w (':' :: c :: cs) h2
            have hl : l = '!' :: '\x7b' :: '\x7b' :: l1 := by
              simpa using dropLit_eq_some _ _ _ h1
            refine ⟨name, w, c, cs.takeWhile (fun x => x ≠ '\x7d'),
              hname, hwmap, by simpa using hlt, ?_, ?_, hm.symm, hd.symm, hsval.symm⟩
            · intro hmem
              have := List.mem_takeWhile_imp hmem
              simp at this
            · have hcs : cs = cs.takeWhile (fun x => x ≠ '\x7d') ++ '\x7d' :: '\x7d' :: rest := by
                conv_lhs => rw [← List.takeWhile_append_dropWhile (p := fun x => x ≠ '\x7d') (l := cs)]
                rw [h3]
              rw [hl, hl1, ← hcs]
          · simp at h
      · simp at h

/-- The token matcher succeeds exactly on inputs that begin with a token of
the shape described by `specTokenShape`. -/
theorem tryMatch_isSome_iff (l : List Char) :
    (tryMatch l).isSome = true ↔ specTokenShape l := by
  constructor
  · intro h
    obtain ⟨⟨m, d, s, rest⟩, hsome⟩ := Option.isSome_iff_exists.mp h
    obtain ⟨name, w, c, s', hname, hw, hc, hs, hl, _, _, _⟩ :=
      tryMatch_inv l m d s rest hsome
    exact ⟨name, w, c, s', rest, hname, hw, hc, hs, hl⟩
  · rintro ⟨name, w, c, s', rest, hname, hw, hc, hs, hl⟩
    rw [hl, tryMatch_exact name w c s' rest hname hw hc hs]
    rfl

/-- A failed head match elsewhere: inputs not starting with `!` never match. -/
theorem tryMatch_not_bang (c : Char) (l : List Char) (h : c ≠ '!') :
    tryMatch (c :: l) = none := by
  simp [tryMatch, dropLit, h]

theorem tryMatch_nil : tryMatch [] = none := rfl

/-- A successful match consumes exactly the matched text. -/
theorem tryMatch_consumed (l : List Char) (m d s : String) (rest : List Char)
    (h : tryMatch l = some (m, d, s, rest)) : m.data ++ rest = l := by
  obtain ⟨name, w, c, s', _, _, _, _, hl, hm, _, _⟩ := tryMatch_inv l m d s rest h
  rw [hl, hm]
  simp

/-- A successful match consumes at least one character. -/
theorem tryMatch_rest_lt (l : List Char) (m d s : String) (rest : List Char)
    (h : tryMatch l = some (m, d, s, rest)) : rest.length < l.length := by
  obtain ⟨name, w, c, s', _, _, _, _, hl, _, _, _⟩ := tryMatch_inv l m d s rest h
  rw [hl]
  simp [List.length_append]
  omega

/-- `scanRepl` does not depend on the fuel once the fuel covers the input
length. -/
theorem scanRepl_fuel (cb : String → String → String → String × Bool) :
    ∀ (f : Nat) (l : List Char), l.length ≤ f → scanRepl cb f l = scanRepl cb l.length l
  | _, [], _ => by cases ‹Nat› <;> rfl
  | 0, c :: cs, h => by simp at h
  | f + 1, c :: cs, h => by
    simp only [List.length_cons] at h
    simp only [List.length_cons, scanRepl]
    cases hm : tryMatch (c :: cs) with
    | some r =>
      obtain ⟨m, d, s, rest⟩ := r
      dsimp only
      have hlt := tryMatch_rest_lt (c :: cs) m d s rest hm
      simp only [List.length_cons] at hlt
      have h1 : rest.length ≤ f := by omega
      have h2 : rest.length ≤ cs.length := by omega
      rw [scanRepl_fuel cb f rest h1, scanRepl_fuel cb cs.length rest h2]
    | none =>
      dsimp only
      have h1 : cs.length ≤ f := by omega
      rw [scanRepl_fuel cb f cs h1]

/-- Scan step on a non-matching head character. -/
theorem runScan_cons_none (cb : String → String → String → String × Bool)
    (c : Char) (l : List Char) (h : tryMatch (c :: l) = none) :
    runScan cb (c :: l) = ((c :: (runScan cb l).1), (runScan cb l).2) := by
  simp only [runScan, List.length_cons, scanRepl, h]

/-- Scan step on a matching position. -/
theorem runScan_match (cb : String → String → String → String × Bool)
    (l : List Char) (m d s : String) (rest : List Char)
    (h : tryMatch l = some (m, d, s, rest)) :
    runScan cb l = ((cb m d s).1.data ++ (runScan cb rest).1,
                    (cb m d s).2 || (runScan cb rest).2) := by
  obtain ⟨name, w, c, s', _, _, _, _, hl, _, _, _⟩ := tryMatch_inv l m d s rest h
  have hlen : 0 < l.length := by rw [hl]; simp
  obtain ⟨f, hf⟩ : ∃ f, l.length = f + 1 :=
    ⟨l.length - 1, by omega⟩
  have hlt := tryMatch_rest_lt l m d s rest h
  have hcons : ∃ c0 cs0, l = c0 :: cs0 := by
    cases l with
    | nil => simp at hlen
    | cons a b => exact ⟨a, b, rfl⟩
  obtain ⟨c0, cs0, hc0⟩ := hcons
  subst hc0
  simp only [runScan, List.length_cons, scanRepl, h]
  rw [scanRepl_fuel cb cs0.length rest (by simp at hlt; omega)]

/-- A document with no match at any position is returned unchanged with the
modified flag clear. -/
theorem runScan_no_match (cb : String → String → String → String × Bool) :
    ∀ l : List Char, (∀ n : Nat, tryMatch (l.drop n) = none) →
    runScan cb l = (l, false)
  | [], _ => rfl
  | c :: cs, h => by
    rw [runScan_cons_none cb c cs (h 0)]
    rw [runScan_no_match cb cs (fun n => h (n + 1))]

/-- Characters before any `!` are passed through untouched by the scan. -/
theorem runScan_append_clean (cb : String → String → String → String × Bool) :
    ∀ (l1 l2 : List Char), '!' ∉ l1 →
    runScan cb (l1 ++ l2) = (l1 ++ (runScan cb l2).1, (runScan cb l2).2)
  | [], l2, _ => by simp
  | c :: l1, l2, h => by
    have hc : c ≠ '!' := fun hc => h (hc ▸ List.mem_cons_self c l1)
    have h1 : '!' ∉ l1 := fun hm => h (List.mem_cons_of_mem c hm)
    rw [List.cons_append, runScan_cons_none cb c (l1 ++ l2)
      (tryMatch_not_bang c (l1 ++ l2) hc)]
    rw [runScan_append_clean cb l1 l2 h1]
    simp

/-- Strings without `!` have no token at any position. -/
theorem no_bang_no_token (l : List Char) (h : '!' ∉ l) :
    ∀ n : Nat, ¬ specTokenShape (l.drop n) := by
  intro n hshape
  obtain ⟨name, w, c, s', rest, _, _, _, _, hl⟩ := hshape
  have : '!' ∈ l.drop n := by rw [hl]; exact List.mem_cons_self _ _
  exact h (List.mem_of_mem_drop this)

theorem stringMkData (s : String) : String.mk s.data = s := by cases s; rfl

theorem no_bang_no_match (l : List Char) (h : '!' ∉ l) :
    ∀ n : Nat, tryMatch (l.drop n) = none := by
  intro n
  cases hd : l.drop n with
  | nil => exact tryMatch_nil
  | cons c r =>
    have hc : c ∈ l := List.mem_of_mem_drop (hd ▸ List.mem_cons_self c r)
    exact tryMatch_not_bang c r (fun he => h (he ▸ hc))

theorem no_token_no_match (l : List Char)
    (h : ∀ n : Nat, ¬ specTokenShape (l.drop n)) :
    ∀ n : Nat, tryMatch (l.drop n) = none := by
  intro n
  cases hm : tryMatch (l.drop n) with
  | none => rfl
  | some r =>
    exfalso
    apply h n
    rw [← tryMatch_isSome_iff, hm]
    rfl

theorem decompose_fuel_spec (cb : String → String → String → String × Bool) :
    ∀ (f : Nat) (l : List Char), l.length ≤ f →
    ((decomposeFuel f l).map segmentSource).flatten = l ∧
    (scanRepl cb f l).1 = ((decomposeFuel f l).map (segmentOutput cb)).flatten
  | _, [], _ => by cases ‹Nat› <;> simp [decomposeFuel, scanRepl]
  | 0, c :: cs, h => by simp at h
  | f + 1, c :: cs, h => by
    simp only [List.length_cons] at h
    simp only [decomposeFuel, scanRepl]
    cases hm : tryMatch (c :: cs) with
    | some r =>
      obtain ⟨m, d, s, rest⟩ := r
      dsimp only
      have hlt := tryMatch_rest_lt _ _ _ _ _ hm
      simp only [List.length_cons] at hlt
      obtain ⟨ih1, ih2⟩ := decompose_fuel_spec cb f rest (by omega)
      constructor
      · simp only [List.map_cons, List.flatten_cons, segmentSource]
        rw [ih1]
        exact tryMatch_consumed _ _ _ _ _ hm
      · simp only [List.map_cons, List.flatten_cons, segmentOutput]
        rw [ih2]
    | none =>
      dsimp only
      obtain ⟨ih1, ih2⟩ := decompose_fuel_spec cb f cs (by omega)
      constructor
      · simp [segmentSource, ih1]
      · simp [segmentOutput, ih2]

theorem append_ne_empty (a b : String) (h : a.data ≠ []) : a ++ b ≠ "" := by
  intro he
  apply h
  have : (a ++ b).data = [] := by rw [he]
  rw [String.data_append] at this
  exact List.append_eq_nil.mp this |>.1

theorem placeholderCallback_monday_ymd (daily : Option DailyNotesOptions)
    (anchor : Int) (M : String) :
    placeholderCallback momentFormat daily anchor M "monday" "YYYY-MM-DD"
      = (momentFormat (setDay anchor 1) "YYYY-MM-DD", true) := by
  have h5 : indexOfString (jsToLower "monday") days = 1 := by decide
  simp only [placeholderCallback, h5]
  rw [if_neg (by decide), if_neg (by decide)]

theorem tryMatch_monday_token (post : List Char) :
    tryMatch ("!\x7b\x7bmonday:YYYY-MM-DD\x7d\x7d".data ++ post)
      = some ("!\x7b\x7bmonday:YYYY-MM-DD\x7d\x7d", "monday", "YYYY-MM-DD", post) := by
  have h := tryMatch_exact "monday" "monday".data 'Y' "YYY-MM-DD".data post
    (by decide) (by decide) (by decide) (by decide)
  have heq : "!\x7b\x7bmonday:YYYY-MM-DD\x7d\x7d".data ++ post
      = '!' :: '\x7b' :: '\x7b' :: ("monday".data ++ ':' :: 'Y' :: ("YYY-MM-DD".data ++ '\x7d' :: '\x7d' :: post)) := by
    simp
  rw [heq, h]
  rfl

theorem tryMatch_friday_token (post : List Char) :
    tryMatch ("!\x7b\x7bfriday:daily-note\x7d\x7d".data ++ post)
      = some ("!\x7b\x7bfriday:daily-note\x7d\x7d", "friday", "daily-note", post) := by
  have h := tryMatch_exact "friday" "friday".data 'd' "aily-note".data post
    (by decide) (by decide) (by decide) (by decide)
  have heq : "!\x7b\x7bfriday:daily-note\x7d\x7d".data ++ post
      = '!' :: '\x7b' :: '\x7b' :: ("friday".data ++ ':' :: 'd' :: ("aily-note".data ++ '\x7d' :: '\x7d' :: post)) := by
    simp
  rw [heq, h]
  rfl

theorem placeholderCallback_friday_daily (fmt : Int → String → String)
    (tpl : String) (anchor : Int) (M : String) :
    placeholderCallback fmt (some ⟨"YYYY-MM-DD", "Daily", tpl⟩) anchor M "friday" "daily-note"
      = ("Daily" ++ "/" ++ fmt (setDay anchor 5) "YYYY-MM-DD", true) := by
  have h5 : indexOfString (jsToLower "friday") days = 5 := by decide
  simp only [placeholderCallback, h5]
  rw [if_neg (by decide), if_pos (by decide)]
  simp only [getDailyNoteLink]
  rw [if_neg (by decide : ¬ (("YYYY-MM-DD" : String) = "")),
    if_neg (by decide : ¬ (("Daily" : String) = ""))]
  dsimp only
  rw [if_neg (append_ne_empty ("Daily" ++ "/") _ (by decide))]

theorem placeholderCallback_friday_none (fmt : Int → String → String)
    (anchor : Int) (M : String) :
    placeholderCallback fmt none anchor M "friday" "daily-note"
      = (fmt (setDay anchor 5) "YYYY-MM-DD", true) := by
  have h5 : indexOfString (jsToLower "friday") days = 5 := by decide
  simp only [placeholderCallback, h5]
  rw [if_neg (by decide), if_pos (by decide)]
  simp only [getDailyNoteLink]

/-- C1 (counterexample): the claim fails for the anchor 2024-03-10 (day number
19792), which is the Sunday of ISO week 2024-W10: the code rewrites the token
to 2024-03-11 (the Monday of the sunday-started week containing the anchor,
i.e. of the following ISO week), not to 2024-03-04, the Monday of ISO week
2024-W10. -/
theorem c1_counterexample :
    civilFromDays 19792 = (2024, 3, 10) ∧
    replaceDatePlaceholders momentFormat none 19792 "!\x7b\x7bmonday:YYYY-MM-DD\x7d\x7d"
      = ("2024-03-11", true) ∧
    ("2024-03-11" : String) ≠ "2024-03-04" := by
  refine ⟨by decide, by decide, by decide⟩

/-- C1 (amended): for every anchor date from Monday 2024-03-04 (day 19786)
through Saturday 2024-03-09 (day 19791) of ISO week 2024-W10, and every
document consisting of the token preceded and followed by text free of `!`,
the placeholder rewrite replaces the token with the Monday of that ISO week
formatted YYYY-MM-DD (2024-03-04); for the Sunday anchor the target is the
Monday of the sunday-started week containing the anchor, which lies in the
next ISO week. -/
theorem c1_monday_rewrite (pre post : String) (daily : Option DailyNotesOptions)
    (anchor : Int) (hpre : '!' ∉ pre.data) (hpost : '!' ∉ post.data)
    (h1 : 19786 ≤ anchor) (h2 : anchor ≤ 19791) :
    replaceDatePlaceholders momentFormat daily anchor
        (pre ++ "!\x7b\x7bmonday:YYYY-MM-DD\x7d\x7d" ++ post)
      = (pre ++ "2024-03-04" ++ post, true) := by
  have hsd : setDay anchor 1 = 19786 := by unfold setDay dayOfWeek; omega
  have hdata : (pre ++ "!\x7b\x7bmonday:YYYY-MM-DD\x7d\x7d" ++ post).data
      = pre.data ++ ("!\x7b\x7bmonday:YYYY-MM-DD\x7d\x7d".data ++ post.data) := by
    simp [String.data_append]
  unfold replaceDatePlaceholders
  rw [hdata, runScan_append_clean _ _ _ hpre,
    runScan_match _ _ _ _ _ _ (tryMatch_monday_token post.data),
    placeholderCallback_monday_ymd, hsd,
    runScan_no_match _ _ (no_bang_no_match post.data hpost)]
  have hfmt : momentFormat 19786 "YYYY-MM-DD" = "2024-03-04" := by decide
  rw [hfmt]
  have hout : (pre ++ "2024-03-04" ++ post).data
      = pre.data ++ ("2024-03-04".data ++ post.data) := by
    simp [String.data_append]
  dsimp only
  rw [← hout, stringMkData]
  rfl

/-- C1 (witness): the amended theorem applied at the concrete anchor
2024-03-06 (day 19788, the Wednesday of ISO week 2024-W10) with concrete
surrounding text. -/
theorem c1_witness :
    replaceDatePlaceholders momentFormat none 19788
        ("See " ++ "!\x7b\x7bmonday:YYYY-MM-DD\x7d\x7d" ++ " for plans")
      = ("See " ++ "2024-03-04" ++ " for plans", true) :=
  c1_monday_rewrite "See " " for plans" none 19788
    (by decide) (by decide) (by decide) (by decide)

/-- C4: for every anchor date and every document consisting of the token
`!` followed by two opening braces, `friday:daily-note`, and two closing
braces, surrounded by text free of `!`: with daily notes enabled and
configured as format YYYY-MM-DD and folder `Daily`, the rewrite replaces the
token with `Daily/` followed by that week's Friday formatted YYYY-MM-DD; with
the daily-notes feature disabled or absent, it replaces the token with that
Friday formatted YYYY-MM-DD alone. -/
theorem c4_daily_note_rewrite (pre post tpl : String) (anchor : Int)
    (hpre : '!' ∉ pre.data) (hpost : '!' ∉ post.data) :
    replaceDatePlaceholders momentFormat (some ⟨"YYYY-MM-DD", "Daily", tpl⟩) anchor
        (pre ++ "!\x7b\x7bfriday:daily-note\x7d\x7d" ++ post)
      = (pre ++ ("Daily" ++ "/" ++ momentFormat (setDay anchor 5) "YYYY-MM-DD") ++ post, true) ∧
    replaceDatePlaceholders momentFormat none anchor
        (pre ++ "!\x7b\x7bfriday:daily-note\x7d\x7d" ++ post)
      = (pre ++ momentFormat (setDay anchor 5) "YYYY-MM-DD" ++ post, true) := by
  have hdata : (pre ++ "!\x7b\x7bfriday:daily-note\x7d\x7d" ++ post).data
      = pre.data ++ ("!\x7b\x7bfriday:daily-note\x7d\x7d".data ++ post.data) := by
    simp [String.data_append]
  constructor
  · unfold replaceDatePlaceholders
    rw [hdata, runScan_append_clean _ _ _ hpre,
      runScan_match _ _ _ _ _ _ (tryMatch_friday_token post.data),
      placeholderCallback_friday_daily,
      runScan_no_match _ _ (no_bang_no_match post.data hpost)]
    have hout : (pre ++ ("Daily" ++ "/" ++ momentFormat (setDay anchor 5) "YYYY-MM-DD") ++ post).data
        = pre.data ++ (("Daily" ++ "/" ++ momentFormat (setDay anchor 5) "YYYY-MM-DD").data ++ post.data) := by
      simp [String.data_append]
    dsimp only
    rw [← hout, stringMkData]
    rfl
  · unfold replaceDatePlaceholders
    rw [hdata, runScan_append_clean _ _ _ hpre,
      runScan_match _ _ _ _ _ _ (tryMatch_friday_token post.data),
      placeholderCallback_friday_none,
      runScan_no_match _ _ (no_bang_no_match post.data hpost)]
    have hout : (pre ++ momentFormat (setDay anchor 5) "YYYY-MM-DD" ++ post).data
        = pre.data ++ ((momentFormat (setDay anchor 5) "YYYY-MM-DD").data ++ post.data) := by
      simp [String.data_append]
    dsimp only
    rw [← hout, stringMkData]
    rfl

/-- C4 (witness): the theorem applied at anchor 2024-03-06 (day 19788), whose
week's Friday is 2024-03-08. -/
theorem c4_witness :
    replaceDatePlaceholders momentFormat (some ⟨"YYYY-MM-DD", "Daily", "T"⟩) 19788
        ("Link: " ++ "!\x7b\x7bfriday:daily-note\x7d\x7d" ++ ".")
      = ("Link: " ++ ("Daily" ++ "/" ++ momentFormat (setDay 19788 5) "YYYY-MM-DD") ++ ".", true) ∧
    replaceDatePlaceholders momentFormat none 19788
        ("Link: " ++ "!\x7b\x7bfriday:daily-note\x7d\x7d" ++ ".")
      = ("Link: " ++ momentFormat (setDay 19788 5) "YYYY-MM-DD" ++ ".", true) :=
  c4_daily_note_rewrite "Link: " "." "T" 19788 (by decide) (by decide)

/-- C10 (counterexample): with the daily-notes options format `[]` (which
formats every date to the empty string) and an empty folder, the legacy
inlined rewrite of `src/unnamed/part_000` returns the empty link directly,
while `replaceDatePlaceholders` of `src/main.ts` treats the empty string as
falsy and falls back to the YYYY-MM-DD form: the two rewrites differ on the
same document, anchor and configuration. -/
theorem c10_counterexample :
    replaceDatePlaceholdersLegacy momentFormat (some ⟨"[]", "", ""⟩) 19788
        "!\x7b\x7bfriday:daily-note\x7d\x7d" = ("", true) ∧
    replaceDatePlaceholders momentFormat (some ⟨"[]", "", ""⟩) 19788
        "!\x7b\x7bfriday:daily-note\x7d\x7d" = ("2024-03-08", true) ∧
    ("" : String) ≠ "2024-03-08" := by
  refine ⟨by decide, by decide, by decide⟩

/-- C2 (amended): the placeholder rewriter recognizes exactly the tokens of
the shape given by `specTokenShape`: `!` and two opening braces, a weekday
name sunday..saturday matched case-insensitively, `:`, then a payload whose
first character is any character other than a line terminator (it may be a
closing brace) followed by zero or more characters none of which is a closing
brace, then two closing braces; and any text containing no token of this
shape at any position is left unchanged by the rewrite, whatever the
replacement callback. -/
theorem c2_token_recognition :
    (∀ l : List Char, (tryMatch l).isSome = true ↔ specTokenShape l) ∧
    (∀ (cb : String → String → String → String × Bool) (l : List Char),
      (∀ n : Nat, ¬ specTokenShape (l.drop n)) → runScan cb l = (l, false)) :=
  ⟨tryMatch_isSome_iff, fun cb l h => runScan_no_match cb l (no_token_no_match l h)⟩

/-- C2 (witness): a concrete token is recognized, and a concrete token-free
document passes through the scan unchanged. -/
theorem c2_witness :
    (tryMatch "!\x7b\x7bmonday:x\x7d\x7d".data).isSome = true ∧
    runScan (placeholderCallback momentFormat none 19788) "abc".data = ("abc".data, false) := by
  constructor
  · exact (c2_token_recognition.1 _).mpr
      ⟨"monday", "monday".data, 'x', [], [], by decide, by decide, by decide, by decide, by decide⟩
  · exact c2_token_recognition.2 _ _ (fun n => no_bang_no_token "abc".data (by decide) n)

/-- C5: for every formatter, daily-notes configuration, anchor date and
document containing no token of the placeholder pattern at any position, the
rewrite returns the document byte-for-byte unchanged with the modified flag
clear, so the editor set-content operation is never invoked. -/
theorem c5_no_token_no_edit (fmt : Int → String → String) (daily : Option DailyNotesOptions)
    (anchor : Int) (content : String)
    (h : ∀ n : Nat, ¬ specTokenShape (content.data.drop n)) :
    replaceDatePlaceholders fmt daily anchor content = (content, false) := by
  unfold replaceDatePlaceholders
  rw [runScan_no_match _ _ (no_token_no_match content.data h)]

/-- C5 (witness): the theorem applied to a concrete token-free document. -/
theorem c5_witness :
    replaceDatePlaceholders momentFormat none 19788 "weekly plan, no tokens"
      = ("weekly plan, no tokens", false) :=
  c5_no_token_no_edit momentFormat none 19788 _
    (no_bang_no_token _ (by decide))

/-- C9: for every formatter, daily-notes configuration, anchor date and
document, the scan decomposes the document into plain characters and matched
tokens whose concatenation restores the document exactly, and the rewrite
output is that same decomposition with each matched token replaced by its
callback value in place: every character outside the matched tokens is
unchanged, in its original position and order. -/
theorem c9_frame (fmt : Int → String → String) (daily : Option DailyNotesOptions)
    (anchor : Int) (content : String) :
    ((decompose content.data).map segmentSource).flatten = content.data ∧
    (replaceDatePlaceholders fmt daily anchor content).1
      = String.mk (((decompose content.data).map
          (segmentOutput (placeholderCallback fmt daily anchor))).flatten) := by
  obtain ⟨h1, h2⟩ := decompose_fuel_spec (placeholderCallback fmt daily anchor)
    content.data.length content.data le_rfl
  refine ⟨h1, ?_⟩
  unfold replaceDatePlaceholders runScan
  dsimp only
  rw [h2]
  rfl

theorem scanRepl_congr (cb1 cb2 : String → String → String → String × Bool)
    (h : ∀ m d s, (cb1 m d s).1 = (cb2 m d s).1) :
    ∀ (f : Nat) (l : List Char), (scanRepl cb1 f l).1 = (scanRepl cb2 f l).1
  | _, [] => by cases ‹Nat› <;> rfl
  | 0, c :: cs => rfl
  | f + 1, c :: cs => by
    simp only [scanRepl]
    cases hm : tryMatch (c :: cs) with
    | some r =>
      obtain ⟨m, d, s, rest⟩ := r
      dsimp only
      rw [h m d s, scanRepl_congr cb1 cb2 h f rest]
    | none =>
      dsimp only
      rw [scanRepl_congr cb1 cb2 h f cs]

theorem callback_agree (fmt : Int → String → String) (daily : Option DailyNotesOptions)
    (date : Int) (h : ∀ d : Int, getDailyNoteLink fmt daily d ≠ some "")
    (m dn sp : String) :
    (placeholderCallbackLegacy fmt daily date m dn sp).1
      = (placeholderCallback fmt daily date m dn sp).1 := by
  unfold placeholderCallback placeholderCallbackLegacy
  by_cases hidx : days.length ≤ indexOfString (jsToLower dn) days
  · rw [if_pos hidx, if_neg (by omega)]
  · rw [if_neg hidx, if_pos (by omega)]
    by_cases htrim : jsTrim sp = "daily-note"
    · rw [if_pos htrim, if_pos htrim]
      cases daily with
      | none => rfl
      | some o =>
        have hne := h (setDay date (indexOfString (jsToLower dn) days))
        simp only [getDailyNoteLink] at hne ⊢
        by_cases hfo : o.folder = ""
        · simp only [hfo, eq_self_iff_true, if_true] at hne ⊢
          by_cases hds : fmt (setDay date (indexOfString (jsToLower dn) days))
              (if o.format = "" then "YYYY-MM-DD" else o.format) = ""
          · exact absurd (congrArg some hds) hne
          · rw [if_neg hds]
        · rw [if_neg hfo] at hne
          rw [if_neg hfo]
          rw [if_neg hfo]
          dsimp only
          by_cases hds : o.folder ++ "/" ++ fmt (setDay date (indexOfString (jsToLower dn) days))
              (if o.format = "" then "YYYY-MM-DD" else o.format) = ""
          · exact absurd (congrArg some hds) hne
          · rw [if_neg hds]
    · rw [if_neg htrim, if_neg htrim]

/-- C10 (amended): the inline placeholder rewrite of the older source file
and the refactored `replaceDatePlaceholders`/`getDailyNoteLink` of
`src/main.ts` compute the same rewritten text for every document, anchor and
configuration in which the daily-note link resolver never produces the empty
string (in particular whenever a daily folder is configured or the daily
format never formats to an empty string); they differ exactly when an
empty-string link is produced, which the refactored code treats as falsy. -/
theorem c10_equivalence (fmt : Int → String → String) (daily : Option DailyNotesOptions)
    (anchor : Int) (content : String)
    (h : ∀ d : Int, getDailyNoteLink fmt daily d ≠ some "") :
    (replaceDatePlaceholdersLegacy fmt daily anchor content).1
      = (replaceDatePlaceholders fmt daily anchor content).1 := by
  unfold replaceDatePlaceholders replaceDatePlaceholdersLegacy runScan
  dsimp only
  rw [scanRepl_congr _ _ (callback_agree fmt daily anchor h) _ _]

/-- C10 (witness): the amended equivalence applied at a concrete
configuration whose links are never empty. -/
theorem c10_witness :
    (replaceDatePlaceholdersLegacy momentFormat (some ⟨"YYYY-MM-DD", "Daily", ""⟩) 19788
        "!\x7b\x7bfriday:daily-note\x7d\x7d").1
      = (replaceDatePlaceholders momentFormat (some ⟨"YYYY-MM-DD", "Daily", ""⟩) 19788
        "!\x7b\x7bfriday:daily-note\x7d\x7d").1 :=
  c10_equivalence momentFormat _ 19788 _ (fun d => by
    simp only [getDailyNoteLink]
    rw [if_neg (by decide)]
    intro hcon
    exact append_ne_empty ("Daily" ++ "/") _ (by decide) (Option.some.inj hcon))

/-- C2 (counterexample): the document consisting of `!`, two opening braces,
`monday:`, and three closing braces contains no token of the claimed shape at
any position (the payload would have to start with a non-brace character),
yet the rewrite changes it: the regex payload group starts with `.`, which
also matches a closing brace, so the token is matched with payload equal to a
single closing brace and rewritten. -/
theorem c2_counterexample :
    ("!\x7b\x7bmonday:\x7d\x7d\x7d".data.tails.all (fun t => ! claimedTokenShapeAt t)) = true ∧
    replaceDatePlaceholders momentFormat none 19788 "!\x7b\x7bmonday:\x7d\x7d\x7d"
      = ("\x7d", true) ∧
    ("\x7d" : String) ≠ "!\x7b\x7bmonday:\x7d\x7d\x7d" := by
  refine ⟨by decide, by decide, by decide⟩

theorem getAbstractFileByPath_create (v : Vault) (p : String) :
    getAbstractFileByPath (vaultCreateFile v p) p = some ⟨p, true, ""⟩ := by
  simp [getAbstractFileByPath, vaultCreateFile, List.find?_cons_of_pos]

theorem getAbstractFileByPath_modify_isSome (v : Vault) (p c q : String) :
    (getAbstractFileByPath (vaultModify v p c) q).isSome
      = (getAbstractFileByPath v q).isSome := by
  induction v with
  | nil => rfl
  | cons e v ih =>
    have hpath : (if e.path = p then (⟨e.path, e.isFile, c⟩ : VaultEntry) else e).path
        = e.path := by
      by_cases hep : e.path = p <;> simp [hep]
    simp only [vaultModify, List.map_cons, getAbstractFileByPath] at ih ⊢
    by_cases heq : e.path = q
    · rw [List.find?_cons_of_pos _ (by simp only [hpath]; simpa using heq),
        List.find?_cons_of_pos _ (by simpa using heq)]
      rfl
    · rw [List.find?_cons_of_neg _ (by simp only [hpath]; simpa using heq),
        List.find?_cons_of_neg _ (by simpa using heq)]
      exact ih

theorem applyTemplate_vault (en : Bool) (v : Vault) (ts fp : String) :
    (applyTemplate en v ts fp).1 = v ∨
    ∃ c, (applyTemplate en v ts fp).1 = vaultModify v fp c := by
  unfold applyTemplate
  cases resolveTemplateWeekly v ts with
  | none => exact Or.inl rfl
  | some e =>
    by_cases hf : e.isFile
    · cases en with
      | true => simp [hf]
      | false =>
        simp only [hf, if_true, Bool.false_eq_true, if_false]
        exact Or.inr ⟨e.content, rfl⟩
    · simp [hf]

theorem openWeeklyNote_lookup_some (fmt : Int → String → String) (en : Bool)
    (v : Vault) (s : WeeklyNotesSettings) (anchor : Int) (e : VaultEntry)
    (h : getAbstractFileByPath v
      (normalizePath (s.folder ++ "/" ++ fmt anchor s.dateFormat ++ ".md")) = some e) :
    openWeeklyNote fmt en v s anchor
      = (v, if e.isFile
          then [Effect.openFile (normalizePath (s.folder ++ "/" ++ fmt anchor s.dateFormat ++ ".md"))]
          else []) := by
  simp only [openWeeklyNote, h]
  by_cases hf : e.isFile <;> simp [hf]

theorem openWeeklyNote_keeps (fmt : Int → String → String) (en : Bool)
    (v : Vault) (s : WeeklyNotesSettings) (anchor : Int) :
    (getAbstractFileByPath (openWeeklyNote fmt en v s anchor).1
      (normalizePath (s.folder ++ "/" ++ fmt anchor s.dateFormat ++ ".md"))).isSome = true := by
  cases h1 : getAbstractFileByPath v
      (normalizePath (s.folder ++ "/" ++ fmt anchor s.dateFormat ++ ".md")) with
  | some e =>
    rw [openWeeklyNote_lookup_some fmt en v s anchor e h1]
    simp [h1]
  | none =>
    simp only [openWeeklyNote, h1]
    by_cases ht : s.template = ""
    · rw [if_pos ht]
      simp [getAbstractFileByPath_create]
    · rw [if_neg ht]
      rcases applyTemplate_vault en
          (vaultCreateFile (ensureFolderExists v s.folder).1
            (normalizePath (s.folder ++ "/" ++ fmt anchor s.dateFormat ++ ".md")))
          s.template
          (normalizePath (s.folder ++ "/" ++ fmt anchor s.dateFormat ++ ".md"))
        with hsame | ⟨c, hmod⟩
      · simp only [hsame]
        simp [getAbstractFileByPath_create]
      · simp only [hmod]
        rw [getAbstractFileByPath_modify_isSome]
        simp [getAbstractFileByPath_create]

/-- C6: for every filename formatter, templates-plugin state, vault,
settings record and date, running `openWeeklyNote` a second time for the same
date after a first run emits no file-creation effect and no `Created weekly
note` notification: the second call finds the entry at the computed path
(which the first call guarantees exists) and only opens it. -/
theorem c6_no_duplicate_creation (fmt : Int → String → String) (en : Bool)
    (v : Vault) (s : WeeklyNotesSettings) (anchor : Int) :
    ((openWeeklyNote fmt en (openWeeklyNote fmt en v s anchor).1 s anchor).2.filter
      (fun e => isCreationEffect e)) = [] := by
  have hk := openWeeklyNote_keeps fmt en v s anchor
  cases h2 : getAbstractFileByPath (openWeeklyNote fmt en v s anchor).1
      (normalizePath (s.folder ++ "/" ++ fmt anchor s.dateFormat ++ ".md")) with
  | none => rw [h2] at hk; simp at hk
  | some e =>
    rw [openWeeklyNote_lookup_some fmt en _ s anchor e h2]
    by_cases hf : e.isFile <;> simp [hf, isCreationEffect]

/-- C3 (amended): the weekly Template Applier resolves the configured
template path literally first and falls back to the path with `.md` appended
only when the literal lookup fails; the Daily-Note Auto-Templater does the
opposite, looking up the path with `.md` appended first and falling back to
the literal path; and in the weekly applier, when neither lookup resolves,
the effects are exactly one `Template file not found` notification and no
file modification or template insertion. -/
theorem c3_template_resolution (v : Vault) (t : String) (en : Bool) (fp : String) :
    (getAbstractFileByPath v (normalizePath t) ≠ none →
      resolveTemplateWeekly v t = getAbstractFileByPath v (normalizePath t)) ∧
    (getAbstractFileByPath v (normalizePath t) = none →
      resolveTemplateWeekly v t = getAbstractFileByPath v (normalizePath (t ++ ".md"))) ∧
    (getAbstractFileByPath v (normalizePath (t ++ ".md")) ≠ none →
      resolveTemplateDaily v t = getAbstractFileByPath v (normalizePath (t ++ ".md"))) ∧
    (getAbstractFileByPath v (normalizePath (t ++ ".md")) = none →
      resolveTemplateDaily v t = getAbstractFileByPath v (normalizePath t)) ∧
    (getAbstractFileByPath v (normalizePath t) = none →
      getAbstractFileByPath v (normalizePath (t ++ ".md")) = none →
      applyTemplate en v t fp = (v, [Effect.notice ("Template file not found: " ++ t)])) := by
  refine ⟨?_, ?_, ?_, ?_, ?_⟩
  · intro h
    unfold resolveTemplateWeekly
    cases hl : getAbstractFileByPath v (normalizePath t) with
    | none => exact absurd hl h
    | some e => rfl
  · intro h
    unfold resolveTemplateWeekly
    rw [h]
  · intro h
    unfold resolveTemplateDaily
    cases hl : getAbstractFileByPath v (normalizePath (t ++ ".md")) with
    | none => exact absurd hl h
    | some e => rfl
  · intro h
    unfold resolveTemplateDaily
    rw [h]
  · intro h1 h2
    unfold applyTemplate
    have hres : resolveTemplateWeekly v t = none := by
      unfold resolveTemplateWeekly
      rw [h1, h2]
    rw [hres]

/-- C3 (counterexample): in a vault containing both a file `T` and a file
`T.md`, the daily auto-templater's resolution of template path `T` yields
`T.md`, not the literal `T` that the claim's literal-first order would
select. -/
theorem c3_counterexample :
    resolveTemplateDaily [⟨"T", true, "A"⟩, ⟨"T.md", true, "B"⟩] "T"
      = some ⟨"T.md", true, "B"⟩ ∧
    getAbstractFileByPath [⟨"T", true, "A"⟩, ⟨"T.md", true, "B"⟩] (normalizePath "T")
      = some ⟨"T", true, "A"⟩ ∧
    (⟨"T.md", true, "B"⟩ : VaultEntry) ≠ ⟨"T", true, "A"⟩ := by
  refine ⟨by decide, by decide, by decide⟩

/-- C3 (witness): the amended theorem applied to a concrete vault holding
both candidate files, and to an empty vault for the not-found branch. -/
theorem c3_witness :
    resolveTemplateWeekly [⟨"T", true, "A"⟩, ⟨"T.md", true, "B"⟩] "T"
      = getAbstractFileByPath [⟨"T", true, "A"⟩, ⟨"T.md", true, "B"⟩] (normalizePath "T") ∧
    applyTemplate true ([] : Vault) "T" "W.md"
      = ([], [Effect.notice ("Template file not found: " ++ "T")]) :=
  ⟨(c3_template_resolution [⟨"T", true, "A"⟩, ⟨"T.md", true, "B"⟩] "T" true "W.md").1
      (by decide),
   (c3_template_resolution ([] : Vault) "T" true "W.md").2.2.2.2 (by decide) (by decide)⟩

/-- C8 (amended): a missing weekly template is reported by exactly one
visible notification and the vault is left unchanged (the note stays open but
unfilled); a missing daily-note template, however, is not reported: the
auto-templater silently does nothing. -/
theorem c8_not_found_reporting :
    (∀ (en : Bool) (v : Vault) (ts fp : String),
      resolveTemplateWeekly v ts = none →
      applyTemplate en v ts fp = (v, [Effect.notice ("Template file not found: " ++ ts)])) ∧
    (∀ (parse : String → String → Bool) (v : Vault) (o : DailyNotesOptions)
      (en : Bool) (f : CreatedFile),
      resolveTemplateDaily v o.template = none →
      onFileCreate parse v (some o) en f = []) := by
  constructor
  · intro en v ts fp h
    unfold applyTemplate
    rw [h]
  · intro parse v o en f h
    unfold onFileCreate
    split
    · rfl
    · dsimp only
      rw [h]
      split_ifs <;> rfl

/-- C8 (counterexample): a freshly created empty daily note whose name
strictly parses, with a configured template path `T` that resolves to no
file, produces no effects at all — in particular no notification — although
the claim says every template-not-found condition is reported via a visible
notification. -/
theorem c8_counterexample :
    strictParseYMD "2024-03-06" "YYYY-MM-DD" = true ∧
    resolveTemplateDaily ([] : Vault) "T" = none ∧
    onFileCreate strictParseYMD [] (some ⟨"YYYY-MM-DD", "", "T"⟩) true
      ⟨"2024-03-06", "md", none, 0, true⟩ = [] := by
  refine ⟨by decide, by decide, by decide⟩

/-- C8 (witness): the amended theorem applied to concrete missing-template
scenarios for both the weekly applier and the daily auto-templater. -/
theorem c8_witness :
    applyTemplate true ([] : Vault) "T" "W.md"
      = ([], [Effect.notice ("Template file not found: " ++ "T")]) ∧
    onFileCreate strictParseYMD [] (some ⟨"YYYY-MM-DD", "", "T"⟩) true
      ⟨"2024-03-06", "md", none, 0, true⟩ = [] :=
  ⟨c8_not_found_reporting.1 true [] "T" "W.md" (by decide),
   c8_not_found_reporting.2 strictParseYMD [] ⟨"YYYY-MM-DD", "", "T"⟩ true
     ⟨"2024-03-06", "md", none, 0, true⟩ (by decide)⟩


/-- C7 (amended): the Daily-Note Auto-Templater triggers template insertion
for a created file if and only if the file is a note file, empty at creation,
with the note extension, the daily-notes plugin is enabled with a configured
(nonempty) template path, the base name strictly parses against the
configured daily format (defaulting to YYYY-MM-DD), the parent folder equals
the configured folder whenever one is set, the template path resolves (with
`.md` appended first) to an existing file, and the host templates plugin is
enabled.  A file failing any of these conditions never triggers insertion. -/
theorem c7_trigger_iff (parse : String → String → Bool) (v : Vault)
    (daily : Option DailyNotesOptions) (en : Bool) (f : CreatedFile) :
    onFileCreate parse v daily en f ≠ [] ↔
    (f.isTFile = true ∧ f.extension = "md" ∧ f.size = 0 ∧
     ∃ o : DailyNotesOptions, daily = some o ∧ o.template ≠ "" ∧
       parse f.basename (if o.format = "" then "YYYY-MM-DD" else o.format) = true ∧
       (o.folder ≠ "" → f.parentPath = some (normalizePath o.folder)) ∧
       (∃ e : VaultEntry, resolveTemplateDaily v o.template = some e ∧ e.isFile = true) ∧
       en = true) := by
  unfold onFileCreate
  by_cases h1 : ¬ f.isTFile ∨ f.extension ≠ "md" ∨ 0 < f.size
  · rw [if_pos h1]
    constructor
    · intro hne
      exact absurd rfl hne
    · rintro ⟨ht, he, hs, -⟩
      exfalso
      rcases h1 with h | h | h
      · exact h ht
      · exact h he
      · omega
  · rw [if_neg h1]
    push_neg at h1
    obtain ⟨ht, he, hs⟩ := h1
    have hs0 : f.size = 0 := by omega
    cases daily with
    | none => simp
    | some o =>
      dsimp only
      by_cases h2 : o.template = ""
      · rw [if_pos h2]
        constructor
        · intro hne
          exact absurd rfl hne
        · rintro ⟨-, -, -, o', ho', htpl, -⟩
          injection ho' with ho'
          subst ho'
          exact absurd h2 htpl
      · rw [if_neg h2]
        by_cases h3 : parse f.basename (if o.format = "" then "YYYY-MM-DD" else o.format) = true
        · rw [if_neg (by simp [h3])]
          by_cases h4 : o.folder ≠ "" ∧ f.parentPath ≠ some (normalizePath o.folder)
          · rw [if_pos h4]
            constructor
            · intro hne
              exact absurd rfl hne
            · rintro ⟨-, -, -, o', ho', -, -, hfold, -, -⟩
              injection ho' with ho'
              subst ho'
              exact fun _ => h4.2 (hfold h4.1)
          · rw [if_neg h4]
            push_neg at h4
            cases hres : resolveTemplateDaily v o.template with
            | none =>
              dsimp only
              constructor
              · intro hne
                exact absurd rfl hne
              · rintro ⟨-, -, -, o', ho', -, -, -, ⟨e, he2, -⟩, -⟩
                injection ho' with ho'
                subst ho'
                rw [hres] at he2
                cases he2
            | some e =>
              dsimp only
              by_cases h5 : e.isFile
              · rw [if_neg (by simp [h5])]
                cases en with
                | true =>
                  rw [if_pos rfl]
                  constructor
                  · intro hne2
                    refine ⟨ht, he, hs0, o, rfl, h2, h3, ?_, ⟨e, hres, by simpa using h5⟩, rfl⟩
                    intro hfold
                    by_cases hp : f.parentPath = some (normalizePath o.folder)
                    · exact hp
                    · exact absurd hp (by simpa using h4 hfold)
                  · intro hrhs
                    simp
                | false =>
                  rw [if_neg (by simp)]
                  constructor
                  · intro hne
                    exact absurd rfl hne
                  · rintro ⟨-, -, -, o', ho', -, -, -, -, hen⟩
                    cases hen
              · rw [if_pos (by simpa using h5)]
                constructor
                · intro hne
                  exact absurd rfl hne
                · rintro ⟨-, -, -, o', ho', -, -, -, ⟨e2, he2, hfe⟩, -⟩
                  injection ho' with ho'
                  subst ho'
                  rw [hres] at he2
                  injection he2 with he2
                  subst he2
                  exact fun _ => h5 (by simpa using hfe)
        · rw [if_pos (by simpa using h3)]
          constructor
          · intro hne
            exact absurd rfl hne
          · rintro ⟨-, -, -, o', ho', -, hp, -, -, -⟩
            injection ho' with ho'
            subst ho'
            exact fun _ => h3 hp

/-- C7 (counterexample): a file meeting all four conditions of the claim as
stated — empty at creation, `md` extension, base name strictly parsing
against the configured format, and no daily folder configured — still
triggers no insertion when the daily-notes template path is unset, so the
claim's `if and only if` fails in the `if` direction. -/
theorem c7_counterexample :
    strictParseYMD "2024-03-06" "YYYY-MM-DD" = true ∧
    onFileCreate strictParseYMD [⟨"T.md", true, "B"⟩] (some ⟨"YYYY-MM-DD", "", ""⟩) true
      ⟨"2024-03-06", "md", none, 0, true⟩ = [] := by
  refine ⟨by decide, by decide⟩

/-- C7 (witness): the amended iff applied to a concrete file and
configuration meeting all conditions, showing insertion is triggered. -/
theorem c7_witness :
    onFileCreate strictParseYMD [⟨"T.md", true, "B"⟩] (some ⟨"YYYY-MM-DD", "Daily", "T"⟩) true
      ⟨"2024-03-06", "md", some "Daily", 0, true⟩ ≠ [] :=
  (c7_trigger_iff strictParseYMD [⟨"T.md", true, "B"⟩] (some ⟨"YYYY-MM-DD", "Daily", "T"⟩) true
      ⟨"2024-03-06", "md", some "Daily", 0, true⟩).mpr
    ⟨rfl, rfl, rfl, ⟨"YYYY-MM-DD", "Daily", "T"⟩, rfl, by decide, by decide, by decide,
      ⟨⟨"T.md", true, "B"⟩, by decide, rfl⟩, rfl⟩
